import Mathlib

/-!
A verification development for the QCW parse-and-aggregate engine of
`src/app.py` (functions `format_fieldsize_mm_to_cm`, `energy_unit`,
`format_energy_with_fff`, `extract_worklists`, `parse_qcw_with_mapping`).

Modelling conventions.
The XML tree produced by `xml.etree.ElementTree` is embedded shallowly: each
element the engine consults becomes a Lean structure field.  A field of type
`Option (Option String)` models "element present or absent" (outer `Option`,
`find` returning a node or `None`) and then "text content or `None`" (inner
`Option`, the `.text` attribute).  Python exceptions are modelled by
`Except String`; the string names the Python exception class raised at the
corresponding line of `app.py`.  Python `float` arithmetic is modelled with
exact rationals; `float(text)` becomes `parseFloat`, a parser of the decimal
literal grammar (sign, digits, optional fraction, optional exponent), and
`f"{x:.Nf}"` becomes `fmtFixed`, rounding half away from the floor; rounding
ties are never exercised by the properties proved here.  Python `dict`s are
association lists with insertion order preserved and value-overwrite keeping
the first-insertion position, exactly as CPython dictionaries behave.
-/

deriving instance DecidableEq for Except

-- ## Generic ordered-dictionary helpers (CPython dict semantics)

/-- Lookup in an insertion-ordered association list (`d[k]` / `d.get(k)`). -/
def dictGet? {κ α : Type} [DecidableEq κ] (k : κ) : List (κ × α) → Option α
  | [] => none
  | (k', v) :: rest => if k = k' then some v else dictGet? k rest

/-- `d[k] = v`: overwrite the value at an existing key (keeping its position),
or append a fresh binding at the end, as CPython dictionaries do. -/
def dictInsert {κ α : Type} [DecidableEq κ] (k : κ) (v : α) : List (κ × α) → List (κ × α)
  | [] => [(k, v)]
  | (k', v') :: rest => if k = k' then (k', v) :: rest else (k', v') :: dictInsert k v rest

/-- `defaultdict` access-and-update: apply `f` to the value at `k` (or to the
default `d` when `k` is absent, appending the new binding at the end). -/
def upsert {κ α : Type} [DecidableEq κ] (k : κ) (d : α) (f : α → α) :
    List (κ × α) → List (κ × α)
  | [] => [(k, f d)]
  | (k', v) :: rest => if k = k' then (k', f v) :: rest else (k', v) :: upsert k d f rest

/-- `if k not in d: d[k] = v` (used by `extract_worklists`, app.py lines 170-171). -/
def insertIfAbsent {κ α : Type} [DecidableEq κ] (k : κ) (v : α) (m : List (κ × α)) :
    List (κ × α) :=
  if (dictGet? k m).isSome then m else m ++ [(k, v)]

/-- Fold a list of keyed payloads into a nested-dictionary level by repeated
`upsert`; this is the generic shape of the `dates_data[...][...][...]` updates
of app.py line 269. -/
def buildUp {κ α β : Type} [DecidableEq κ] (d : α) (ins : β → α → α) :
    List (κ × β) → List (κ × α) → List (κ × α)
  | [], m => m
  | (k, b) :: l, m => buildUp d ins l (upsert k d (ins b) m)

/-- The keys of `l` that are not in `seen`, in order of first occurrence:
the key order a `defaultdict` accumulates when fed `l` left to right. -/
def firstSeenFrom {κ : Type} [DecidableEq κ] (seen : List κ) : List κ → List κ
  | [] => []
  | k :: l => if k ∈ seen then firstSeenFrom seen l else k :: firstSeenFrom (seen ++ [k]) l

/-- Insertion step of sorting an association list by key. -/
def insertSortedByKey {α : Type} (p : String × α) : List (String × α) → List (String × α)
  | [] => [p]
  | q :: l => if p.1 ≤ q.1 then p :: q :: l else q :: insertSortedByKey p l

/-- Rebuild an association list with its keys in ascending order, as the
`for date in sorted(dates_data.keys())` loop of app.py lines 272-278 does. -/
def sortByKey {α : Type} : List (String × α) → List (String × α)
  | [] => []
  | p :: l => insertSortedByKey p (sortByKey l)

/-- The key sequence of an association list, in stored order. -/
def keysOf {κ α : Type} (m : List (κ × α)) : List κ := m.map Prod.fst

/-- Lookup with a default, `d.get(k, dflt)` / `defaultdict` read access. -/
def getDflt {κ α : Type} [DecidableEq κ] (k : κ) (d : α) (m : List (κ × α)) : α :=
  (dictGet? k m).getD d

-- ## Python primitives used by the engine

/-- Python `str(x)` applied to a text node that may be `None`. -/
def pyStr : Option String → String
  | some s => s
  | none => "None"

/-- Value of a list of decimal digit characters. -/
def digitsToNat (cs : List Char) : Nat :=
  cs.foldl (fun n c => n * 10 + (c.toNat - 48)) 0

/-- Python `float(text)` on the decimal-literal grammar: optional surrounding
whitespace, optional sign, digits with an optional fractional part, and an
optional exponent.  Returns `none` where CPython raises `ValueError`. -/
def parseFloat (s : String) : Option ℚ :=
  let cs := s.trim.data
  let sgnSplit : ℚ × List Char :=
    match cs with
    | '+' :: r => (1, r)
    | '-' :: r => (-1, r)
    | _ => (1, cs)
  let sgn := sgnSplit.1
  let cs₀ := sgnSplit.2
  let ip := cs₀.takeWhile Char.isDigit
  let r₁ := cs₀.dropWhile Char.isDigit
  let fracSplit : List Char × List Char :=
    match r₁ with
    | '.' :: r => (r.takeWhile Char.isDigit, r.dropWhile Char.isDigit)
    | _ => ([], r₁)
  let fp := fracSplit.1
  let r₂ := fracSplit.2
  if ip.isEmpty && fp.isEmpty then none
  else
    let mant : ℚ := sgn * ((digitsToNat ip : ℚ) + (digitsToNat fp : ℚ) / (10 : ℚ) ^ fp.length)
    match r₂ with
    | [] => some mant
    | e :: r₃ =>
      if e = 'e' ∨ e = 'E' then
        let esgnSplit : Int × List Char :=
          match r₃ with
          | '+' :: r => (1, r)
          | '-' :: r => (-1, r)
          | _ => (1, r₃)
        let ed := esgnSplit.2.takeWhile Char.isDigit
        let r₅ := esgnSplit.2.dropWhile Char.isDigit
        if ed.isEmpty ∨ ¬ r₅.isEmpty then none
        else
          let ev : Int := esgnSplit.1 * (digitsToNat ed : Int)
          some (if 0 ≤ ev then mant * (10 : ℚ) ^ ev.toNat else mant / (10 : ℚ) ^ (-ev).toNat)
      else none

/-- Left-pad a digit string with zeros to the requested width. -/
def padLeftZeros (len : Nat) (s : String) : String :=
  if s.length < len then String.mk (List.replicate (len - s.length) '0') ++ s else s

/-- Round a rational to the nearest integer, halves up: `⌊q + 1/2⌋`,
computed on the numerator and denominator so the kernel can evaluate it. -/
def ratRound (q : ℚ) : Int := Int.fdiv (2 * q.num + q.den) (2 * q.den)

/-- Python `f"{x:.Nf}"` over the rational model: round to `prec` decimal
places and print with exactly `prec` fraction digits (none when `prec = 0`). -/
def fmtFixed (prec : Nat) (q : ℚ) : String :=
  let n : Int := ratRound (q * (10 : ℚ) ^ prec)
  let sign := if n < 0 then "-" else ""
  let m := n.natAbs
  if prec = 0 then sign ++ toString m
  else sign ++ toString (m / 10 ^ prec) ++ "." ++ padLeftZeros prec (toString (m % 10 ^ prec))

-- ## Helpers of app.py

/-- The `try` body of `format_fieldsize_mm_to_cm` (app.py lines 122-126):
`some` on success, `none` where any step raises (caught by the bare
`except`). -/
def fieldConvert (field_text : String) : Option String :=
  match field_text.splitOn "x" with
  | [x_mm, y_mm] =>
    match parseFloat x_mm, parseFloat y_mm with
    | some xq, some yq =>
      some (fmtFixed 0 (xq / 10) ++ " cm X " ++ fmtFixed 0 (yq / 10) ++ " cm")
    | _, _ => none
  | _ => none

/-- app.py lines 120-128: convert a `"WxH"` millimeter pair to centimeters,
returning the input unchanged when anything in the body raises. -/
def format_fieldsize_mm_to_cm (field_text : String) : String :=
  (fieldConvert field_text).getD field_text

/-- app.py lines 130-132: `"MV"` when the modality starts with `"photon"`
case-insensitively, else `"MeV"`. -/
def energy_unit (modality : String) : String :=
  if modality.toLower.startsWith "photon" then "MV" else "MeV"

/-- app.py lines 134-139: append `" FFF"` when the FFF flag text equals
`"YES"` case-insensitively.  The first argument is the raw `Energy` text,
possibly `None` (Python `str()` renders that as `"None"`). -/
def format_energy_with_fff (energy : Option String) (fff_value : Option String) : String :=
  let energy_str := pyStr energy
  match fff_value with
  | some s => if s.toUpper = "YES" then energy_str ++ " FFF" else energy_str
  | none => energy_str

-- ## XML data model (the element shapes the engine consults)

/-- One `AnalyzeParams` child: its tag and, when a `Norm` child element
exists, that child's text content. -/
structure ParamNode where
  tag : String
  norm : Option (Option String)
deriving DecidableEq, Repr

/-- One `AnalyzeValues` child: its tag and, when a `Value` child element
exists, that child's text content. -/
structure ValueNode where
  tag : String
  value : Option (Option String)
deriving DecidableEq, Repr

/-- The `Worklist` element of one trend record: its `id` attribute (absent
attributes read as `None`), the optional `Name` child, the
`AdminValues/Energy|Modality|Fieldsize|FFF` children, and the
`AdminData/AnalyzeParams` children. -/
structure WorklistNode where
  id : Option String
  name : Option (Option String)
  energy : Option (Option String)
  modality : Option (Option String)
  fieldsize : Option (Option String)
  fff : Option (Option String)
  analyzeParams : List ParamNode
deriving DecidableEq, Repr

/-- The `MeasData` element: its optional `AnalyzeValues` child with its
parameter children. -/
structure MeasDataNode where
  analyzeValues : Option (List ValueNode)
deriving DecidableEq, Repr

/-- One `TrendData` element: `date` attribute, optional `Worklist` child,
optional `MeasData` descendant. -/
structure TrendData where
  date : Option String
  worklist : Option WorklistNode
  measData : Option MeasDataNode
deriving DecidableEq, Repr

/-- One entry of an energy block's `measured` dictionary (app.py lines
258-261). -/
structure MeasEntry where
  value : String
  deviation : String
deriving DecidableEq, Repr

/-- One entry of `failed_tests` (app.py lines 248-252). -/
structure FailedTest where
  parameter : String
  deviation : String
  energy : String
deriving DecidableEq, Repr

/-- The `energy_data` dictionary built per record (app.py lines 263-267). -/
structure EnergyBlock where
  energy : String
  measured : List (String × MeasEntry)
  failed_tests : List FailedTest
deriving DecidableEq, Repr

/-- `dates_data[date][machine][field]`, innermost level first.  The field
key is `Option String` because a `Fieldsize` element whose text is `None`
passes through `format_fieldsize_mm_to_cm`'s bare `except` unchanged and is
then used as the (None) grouping key. -/
abbrev FieldMap := List (Option String × List EnergyBlock)

abbrev MachineMap := List (String × FieldMap)

abbrev Agg := List (String × MachineMap)

instance : DecidableEq FieldMap := inferInstance

instance : DecidableEq MachineMap := inferInstance

instance : DecidableEq Agg := inferInstance

/-- The data inserted for one eligible record: date key, machine name, field
key and the energy block. -/
abbrev Item := String × String × Option String × EnergyBlock

abbrev Mapping := List (String × String)

-- ## extract_worklists (app.py lines 145-173)

/-- app.py lines 163-168: the declared worklist name, `"Worklist_<id>"` when
the `Name` element is missing or has no text, else the stripped text. -/
def declaredName (w : WorklistNode) : String :=
  match w.name with
  | some (some s) => s.trim
  | _ => "Worklist_" ++ pyStr w.id

/-- app.py lines 145-173: the `worklistId → declaredName` listing, keeping
the first occurrence of each id. -/
def extract_worklists (trends : List TrendData) : List (Option String × String) :=
  trends.foldl
    (fun acc t =>
      match t.worklist with
      | none => acc
      | some w => insertIfAbsent w.id (declaredName w) acc)
    []

-- ## parse_qcw_with_mapping (app.py lines 175-280)

/-- app.py line 195: `machine_name_mapping.get(worklist_id, f"Machine_{worklist_id}")`. -/
def machineLabel (mapping : Mapping) (id? : Option String) : String :=
  match id? with
  | some i =>
    match dictGet? i mapping with
    | some nm => nm
    | none => "Machine_" ++ i
  | none => "Machine_None"

/-- app.py lines 210-217: fold the `AnalyzeParams` children into the
`norm_values` dictionary.  `float` of a missing text raises `TypeError`, of a
non-numeric text raises `ValueError`; both escape the engine. -/
def extractNormsAux (acc : List (String × ℚ)) :
    List ParamNode → Except String (List (String × ℚ))
  | [] => Except.ok acc
  | p :: ps =>
    if p.tag = "Wedge" then extractNormsAux acc ps
    else
      match p.norm with
      | none => extractNormsAux acc ps
      | some none => Except.error "TypeError"
      | some (some s) =>
        match parseFloat s with
        | none => Except.error "ValueError"
        | some q => extractNormsAux (dictInsert p.tag q acc) ps

def extractNorms (ps : List ParamNode) : Except String (List (String × ℚ)) :=
  extractNormsAux [] ps

/-- app.py lines 239-256: the deviation cell and the optional failure entry
for one observation, from the `norm_values` dictionary, the energy+unit
label, the parameter tag and the parsed measured value. -/
def devInfo (norm_values : List (String × ℚ)) (energy_with_unit : String)
    (tag : String) (meas_value : ℚ) : String × Option FailedTest :=
  match dictGet? tag norm_values with
  | some norm =>
    if norm ≠ 0 then
      let deviation := ((meas_value - norm) / norm) * 100
      let dev_formatted := fmtFixed 2 deviation
      (dev_formatted,
        if |deviation| > 3 then
          some { parameter := tag, deviation := dev_formatted, energy := energy_with_unit }
        else none)
    else ("0.00", none)
  | none => ("N/A", none)

/-- app.py lines 231-261: the measurement loop, threading the `measured`
dictionary and the `failed_tests` list. -/
def processValuesAux (norm_values : List (String × ℚ)) (energy_with_unit : String)
    (measured : List (String × MeasEntry)) (failed : List FailedTest) :
    List ValueNode → Except String (List (String × MeasEntry) × List FailedTest)
  | [] => Except.ok (measured, failed)
  | v :: vs =>
    if v.tag = "Wedge" then processValuesAux norm_values energy_with_unit measured failed vs
    else
      match v.value with
      | none => processValuesAux norm_values energy_with_unit measured failed vs
      | some none => Except.error "TypeError"
      | some (some s) =>
        match parseFloat s with
        | none => Except.error "ValueError"
        | some q =>
          let meas_formatted := fmtFixed 2 q
          let dev := devInfo norm_values energy_with_unit v.tag q
          let failed' := match dev.2 with
            | some f => failed ++ [f]
            | none => failed
          processValuesAux norm_values energy_with_unit
            (dictInsert v.tag { value := meas_formatted, deviation := dev.1 } measured)
            failed' vs

def processValues (norm_values : List (String × ℚ)) (energy_with_unit : String)
    (vs : List ValueNode) : Except String (List (String × MeasEntry) × List FailedTest) :=
  processValuesAux norm_values energy_with_unit [] [] vs

/-- app.py lines 187-267: process one `TrendData` element.  `Except.ok none`
means the record was skipped (missing `Worklist`, `MeasData` or
`AnalyzeValues`); `Except.error` models a Python exception escaping the
engine; `Except.ok (some item)` carries the keys and energy block to insert.
The evaluation order of the source is preserved: the `date` attribute is read
first, then the worklist id, the `Energy`/`Modality`/`Fieldsize` texts, the
field conversion, the FFF flag, the unit (which raises when the `Modality`
text is `None`), the norm extraction, and only then the `MeasData` checks. -/
def processTrend (mapping : Mapping) (t : TrendData) : Except String (Option Item) :=
  match t.date with
  | none => Except.error "AttributeError"
  | some dateAttr =>
    let date_str := (dateAttr.splitOn " ").headD ""
    match t.worklist with
    | none => Except.ok none
    | some w =>
      let machine_name := machineLabel mapping w.id
      match w.energy with
      | none => Except.error "AttributeError"
      | some energyTxt =>
        match w.modality with
        | none => Except.error "AttributeError"
        | some modalityTxt =>
          match w.fieldsize with
          | none => Except.error "AttributeError"
          | some rawFieldTxt =>
            let field := rawFieldTxt.map format_fieldsize_mm_to_cm
            let fff_value : Option String :=
              match w.fff with
              | none => some "No"
              | some tx => tx
            let energy_display := format_energy_with_fff energyTxt fff_value
            match modalityTxt with
            | none => Except.error "AttributeError"
            | some modalityStr =>
              let energy_with_unit := energy_display ++ " " ++ energy_unit modalityStr
              match extractNorms w.analyzeParams with
              | Except.error e => Except.error e
              | Except.ok norm_values =>
                match t.measData with
                | none => Except.ok none
                | some md =>
                  match md.analyzeValues with
                  | none => Except.ok none
                  | some vs =>
                    match processValues norm_values energy_with_unit vs with
                    | Except.error e => Except.error e
                    | Except.ok mf =>
                      Except.ok (some (date_str, machine_name, field,
                        { energy := energy_with_unit,
                          measured := mf.1, failed_tests := mf.2 }))

/-- Innermost insertion: `…[field].append(energy_data)`. -/
def insB (b : EnergyBlock) (bl : List EnergyBlock) : List EnergyBlock := bl ++ [b]

/-- Field-level insertion into a machine's field map. -/
def insF (c : Option String × EnergyBlock) (fm : FieldMap) : FieldMap :=
  upsert c.1 [] (insB c.2) fm

/-- Machine-level insertion into a date's machine map. -/
def insM (b : String × Option String × EnergyBlock) (mm : MachineMap) : MachineMap :=
  upsert b.1 [] (insF b.2) mm

/-- app.py line 269: `dates_data[date_str][machine_name][field].append(energy_data)`. -/
def insD (it : Item) (r : Agg) : Agg :=
  upsert it.1 [] (insM it.2) r

/-- The `for trend in root.findall(".//TrendData")` loop of app.py lines
187-269, threading the accumulated `dates_data`. -/
def parseLoop (mapping : Mapping) (acc : Agg) : List TrendData → Except String Agg
  | [] => Except.ok acc
  | t :: ts =>
    match processTrend mapping t with
    | Except.error e => Except.error e
    | Except.ok none => parseLoop mapping acc ts
    | Except.ok (some it) => parseLoop mapping (insD it acc) ts

/-- app.py lines 175-280: the whole engine on an already-parsed document
(the list of `TrendData` elements), ending with the date-sorted rebuild of
lines 272-278. -/
def parse_qcw_with_mapping (trends : List TrendData) (mapping : Mapping) :
    Except String Agg :=
  match parseLoop mapping [] trends with
  | Except.error e => Except.error e
  | Except.ok acc => Except.ok (sortByKey acc)

-- ## Observation functions about the engine (used to state the claims)

/-- A record contributes an energy block iff it carries a `Worklist`, a
`MeasData` and an `AnalyzeValues` element (app.py lines 190-192, 220-226). -/
def eligibleTrend (t : TrendData) : Bool :=
  t.worklist.isSome &&
    (match t.measData with
     | some md => md.analyzeValues.isSome
     | none => false)

/-- The items the record loop inserts, in record order. -/
def eligibleItems (mapping : Mapping) (ts : List TrendData) : List Item :=
  ts.filterMap (fun t =>
    match processTrend mapping t with
    | Except.ok (some it) => some it
    | _ => none)

/-- Restrict a keyed payload list to one key and drop the key. -/
def payloadsAt {κ β : Type} [DecidableEq κ] (l : List (κ × β)) (k : κ) : List β :=
  (l.filter (fun p => decide (p.1 = k))).map Prod.snd

/-- Left fold of an insertion function over a payload list; the shape taken
by one nesting level of the record loop's dictionary updates. -/
def foldIns {α β : Type} (ins : β → α → α) (a : α) : List β → α
  | [] => a
  | b :: l => foldIns ins (ins b a) l

/-- The `measured` entry one `AnalyzeValues` child contributes, when it
contributes one (not `Wedge`, has a `Value` child, numeric text). -/
def validEntry (norm_values : List (String × ℚ)) (energy_with_unit : String)
    (v : ValueNode) : Option (String × MeasEntry) :=
  if v.tag = "Wedge" then none
  else
    match v.value with
    | some (some s) =>
      match parseFloat s with
      | some q =>
        some (v.tag,
          { value := fmtFixed 2 q,
            deviation := (devInfo norm_values energy_with_unit v.tag q).1 })
      | none => none
    | _ => none

/-- The `failed_tests` entry one `AnalyzeValues` child contributes, when it
contributes one. -/
def failOf (norm_values : List (String × ℚ)) (energy_with_unit : String)
    (v : ValueNode) : Option FailedTest :=
  if v.tag = "Wedge" then none
  else
    match v.value with
    | some (some s) =>
      match parseFloat s with
      | some q => (devInfo norm_values energy_with_unit v.tag q).2
      | none => none
    | _ => none

/-- Number of energy blocks under one field map / machine map / report. -/
def countF (fm : FieldMap) : Nat := (fm.map (fun p => p.2.length)).sum

def countM (mm : MachineMap) : Nat := (mm.map (fun p => countF p.2)).sum

def countBlocks (r : Agg) : Nat := (r.map (fun p => countM p.2)).sum

-- ## Triple-mode tolerance (modelled from the spec)

/-- Status of one triple-mode validation (spec section 4.4). -/
inductive QAStatus
  | PASS
  | FAIL
  | NOT_APPLICABLE
deriving DecidableEq, Repr

/-- Modelled from the spec: an `AnalyzeParams` child as the dual-schema
tolerance resolver of spec sections 4.2 and 9 sees it, carrying the optional
`Min`, `Max`, `Target` and `Norm` child texts.  No triple-mode code exists
under `src/` (app.py reads only `Norm`), so this node shape and the
definitions below follow the spec's words. -/
structure SpecParamNode where
  minTxt : Option String
  maxTxt : Option String
  targetTxt : Option String
  normTxt : Option String
deriving DecidableEq, Repr

/-- Modelled from the spec: the tagged union `TriplePolicy | NormPolicy` of
spec section 9. -/
inductive TolerancePolicy
  | triple (minTxt maxTxt targetTxt : String)
  | norm (normTxt : String)
deriving DecidableEq, Repr

/-- Modelled from the spec: per-worklist auto-detection of the tolerance
schema (spec section 4.2) — triple mode when `Min`, `Max`, `Target` children
are all present, norm mode when a `Norm` child is present. -/
def resolveTolerance (p : SpecParamNode) : Option TolerancePolicy :=
  match p.minTxt, p.maxTxt, p.targetTxt with
  | some lo, some hi, some tg => some (TolerancePolicy.triple lo hi tg)
  | _, _, _ =>
    match p.normTxt with
    | some nm => some (TolerancePolicy.norm nm)
    | none => none

/-- Modelled from the spec: triple-mode validation (spec section 4.4) —
`PASS` iff `min ≤ measured ≤ max` inclusive, `FAIL` otherwise,
`NOT_APPLICABLE` when the measured value or a bound fails numeric parsing. -/
def tripleStatus (measuredTxt minTxt maxTxt : String) : QAStatus :=
  match parseFloat measuredTxt, parseFloat minTxt, parseFloat maxTxt with
  | some m, some lo, some hi =>
    if lo ≤ m ∧ m ≤ hi then QAStatus.PASS else QAStatus.FAIL
  | _, _, _ => QAStatus.NOT_APPLICABLE

-- ## Concrete sample documents (used by closed theorems and witnesses)

/-- A well-formed worklist: id `"101"`, name `"TB1"`, 6 MV photons,
10x10 cm field, one `CAX` norm of `100.0`. -/
def wlOk : WorklistNode :=
  { id := some "101", name := some (some "TB1"), energy := some (some "6"),
    modality := some (some "Photons"), fieldsize := some (some "100x100"),
    fff := none, analyzeParams := [{ tag := "CAX", norm := some (some "100.0") }] }

def mdOk : MeasDataNode :=
  { analyzeValues := some [{ tag := "CAX", value := some (some "100.5") }] }

def tOk : TrendData :=
  { date := some "2024-01-02 08:00:00", worklist := some wlOk, measData := some mdOk }

/-- Same machine, one day earlier (its record appears later in the file, so
the date sort has work to do). -/
def tOkEarlier : TrendData :=
  { date := some "2024-01-01 09:30:00", worklist := some wlOk, measData := some mdOk }

def tNoWorklist : TrendData :=
  { date := some "2024-01-02 08:00:00", worklist := none, measData := some mdOk }

def tNoMeas : TrendData :=
  { date := some "2024-01-02 08:00:00", worklist := some wlOk, measData := none }

def tNoAnalyze : TrendData :=
  { date := some "2024-01-02 08:00:00", worklist := some wlOk,
    measData := some { analyzeValues := none } }

/-- A record whose `Norm` text is not numeric. -/
def tBadNorm : TrendData :=
  { date := some "2024-01-02 08:00:00",
    worklist := some ({ wlOk with analyzeParams := [{ tag := "CAX", norm := some (some "oops") }] }),
    measData := some mdOk }

/-- A record whose measured `Value` text is not numeric. -/
def tBadValue : TrendData :=
  { date := some "2024-01-02 08:00:00", worklist := some wlOk,
    measData := some { analyzeValues := some [{ tag := "CAX", value := some (some "oops") }] } }

/-- A record with no `date` attribute. -/
def tNoDate : TrendData :=
  { date := none, worklist := some wlOk, measData := some mdOk }

/-- A record whose worklist has no `Energy` element. -/
def tNoEnergy : TrendData :=
  { date := some "2024-01-02 08:00:00", worklist := some ({ wlOk with energy := none }),
    measData := some mdOk }

/-- A record whose worklist has no `Modality` element. -/
def tNoModality : TrendData :=
  { date := some "2024-01-02 08:00:00", worklist := some ({ wlOk with modality := none }),
    measData := some mdOk }

/-- A record whose worklist has no `Fieldsize` element. -/
def tNoFieldsize : TrendData :=
  { date := some "2024-01-02 08:00:00", worklist := some ({ wlOk with fieldsize := none }),
    measData := some mdOk }

/-- A record whose `Fieldsize` text is not a millimeter pair. -/
def tWeirdField : TrendData :=
  { date := some "2024-01-02 08:00:00",
    worklist := some ({ wlOk with fieldsize := some (some "random") }),
    measData := some mdOk }

/-- A record measuring the same parameter name twice, both deviating by more
than three percent. -/
def vnDupA : ValueNode := { tag := "CAX", value := some (some "110.0") }

def vnDupB : ValueNode := { tag := "CAX", value := some (some "90.0") }

def tDup : TrendData :=
  { date := some "2024-01-02 08:00:00", worklist := some wlOk,
    measData := some { analyzeValues := some [vnDupA, vnDupB] } }

/-- A worklist with no `Name` element. -/
def wlNoName : WorklistNode := { wlOk with id := some "7", name := none }

def tNoName : TrendData :=
  { date := some "2024-01-02 08:00:00", worklist := some wlNoName, measData := some mdOk }

/-- The energy block both `tOk` and `tOkEarlier` produce. -/
def blkHalf : EnergyBlock :=
  { energy := "6 MV",
    measured := [("CAX", { value := "100.50", deviation := "0.50" })],
    failed_tests := [] }

/-- The aggregated report for `[tOk, tNoWorklist, tOkEarlier]` under the
mapping `[("101", "TrueBeam")]`: two dates, ascending, one machine each. -/
def aggTwoDays : Agg :=
  [("2024-01-01", [("TrueBeam", [(some "10 cm X 10 cm", [blkHalf])])]),
   ("2024-01-02", [("TrueBeam", [(some "10 cm X 10 cm", [blkHalf])])])]

-- ## Dictionary lemmas

theorem dictGet?_upsert_self {κ α : Type} [DecidableEq κ] (k : κ) (d : α) (f : α → α)
    (m : List (κ × α)) :
    dictGet? k (upsert k d f m) = some (f ((dictGet? k m).getD d)) := by
  induction m with
  | nil => simp [upsert, dictGet?]
  | cons p rest ih =>
    obtain ⟨k', v⟩ := p
    by_cases h : k = k'
    · subst h; simp [upsert, dictGet?]
    · simp [upsert, dictGet?, h, ih]

theorem dictGet?_upsert_ne {κ α : Type} [DecidableEq κ] {j k : κ} (h : j ≠ k) (d : α)
    (f : α → α) (m : List (κ × α)) :
    dictGet? j (upsert k d f m) = dictGet? j m := by
  induction m with
  | nil => simp [upsert, dictGet?, h]
  | cons p rest ih =>
    obtain ⟨k', v⟩ := p
    by_cases h2 : k = k'
    · subst h2; simp [upsert, dictGet?, h]
    · by_cases h3 : j = k'
      · subst h3; simp [upsert, dictGet?, h2]
      · simp [upsert, dictGet?, h2, h3, ih]

theorem keysOf_upsert {κ α : Type} [DecidableEq κ] (k : κ) (d : α) (f : α → α)
    (m : List (κ × α)) :
    keysOf (upsert k d f m) =
      if k ∈ keysOf m then keysOf m else keysOf m ++ [k] := by
  induction m with
  | nil => simp [upsert, keysOf]
  | cons p rest ih =>
    obtain ⟨k', v⟩ := p
    by_cases h : k = k'
    · subst h; simp [upsert, keysOf]
    · rw [upsert, if_neg h]
      simp only [keysOf, List.map_cons] at ih ⊢
      rw [ih]
      by_cases hm : k ∈ List.map Prod.fst rest
      · rw [if_pos hm, if_pos (List.mem_cons_of_mem _ hm)]
      · rw [if_neg hm, if_neg (by simp [List.mem_cons, h, hm]), List.cons_append]

theorem dictGet?_dictInsert_self {κ α : Type} [DecidableEq κ] (k : κ) (v : α)
    (m : List (κ × α)) :
    dictGet? k (dictInsert k v m) = some v := by
  induction m with
  | nil => simp [dictInsert, dictGet?]
  | cons p rest ih =>
    obtain ⟨k', v'⟩ := p
    by_cases h : k = k'
    · subst h; simp [dictInsert, dictGet?]
    · simp [dictInsert, dictGet?, h, ih]

theorem dictGet?_dictInsert_ne {κ α : Type} [DecidableEq κ] {j k : κ} (h : j ≠ k) (v : α)
    (m : List (κ × α)) :
    dictGet? j (dictInsert k v m) = dictGet? j m := by
  induction m with
  | nil => simp [dictInsert, dictGet?, h]
  | cons p rest ih =>
    obtain ⟨k', v'⟩ := p
    by_cases h2 : k = k'
    · subst h2; simp [dictInsert, dictGet?, h]
    · by_cases h3 : j = k'
      · subst h3; simp [dictInsert, dictGet?, h2]
      · simp [dictInsert, dictGet?, h2, h3, ih]

-- ## buildUp lemmas: value and key-order characterization of nested inserts

theorem getDflt_buildUp {κ α β : Type} [DecidableEq κ] (k : κ) (d : α) (ins : β → α → α)
    (l : List (κ × β)) (m : List (κ × α)) :
    getDflt k d (buildUp d ins l m) = foldIns ins (getDflt k d m) (payloadsAt l k) := by
  induction l generalizing m with
  | nil => simp [buildUp, payloadsAt, foldIns]
  | cons p l ih =>
    obtain ⟨k', b⟩ := p
    by_cases h : k' = k
    · subst h
      rw [buildUp, ih]
      simp [payloadsAt, List.filter_cons, foldIns, getDflt, dictGet?_upsert_self]
    · rw [buildUp, ih]
      simp [payloadsAt, List.filter_cons, h, getDflt,
        dictGet?_upsert_ne (fun hk => h hk.symm)]

theorem keysOf_buildUp {κ α β : Type} [DecidableEq κ] (d : α) (ins : β → α → α)
    (l : List (κ × β)) (m : List (κ × α)) :
    keysOf (buildUp d ins l m) =
      keysOf m ++ firstSeenFrom (keysOf m) (l.map Prod.fst) := by
  induction l generalizing m with
  | nil => simp [buildUp, firstSeenFrom]
  | cons p l ih =>
    obtain ⟨k, b⟩ := p
    rw [buildUp, ih, keysOf_upsert]
    by_cases h : k ∈ keysOf m
    · rw [if_pos h]
      simp [firstSeenFrom, h]
    · rw [if_neg h]
      simp only [List.map_cons, firstSeenFrom, h, if_neg]
      rw [List.append_assoc]
      simp [h]

theorem nodup_append_firstSeenFrom {κ : Type} [DecidableEq κ] (seen : List κ) (l : List κ)
    (h : seen.Nodup) : (seen ++ firstSeenFrom seen l).Nodup := by
  induction l generalizing seen with
  | nil => simpa [firstSeenFrom]
  | cons k l ih =>
    by_cases hk : k ∈ seen
    · simpa [firstSeenFrom, hk] using ih seen h
    · have h2 : (seen ++ [k]).Nodup := by
        simp [List.nodup_append, h, hk]
      have h3 := ih (seen ++ [k]) h2
      rw [List.append_assoc] at h3
      simpa [firstSeenFrom, hk] using h3

theorem foldIns_eq_buildUp {κ α β : Type} [DecidableEq κ] (d : α) (ins : β → α → α)
    (l : List (κ × β)) (m : List (κ × α)) :
    foldIns (fun p a => upsert p.1 d (ins p.2) a) m l = buildUp d ins l m := by
  induction l generalizing m with
  | nil => rfl
  | cons p l ih =>
    obtain ⟨k, b⟩ := p
    rw [foldIns, buildUp]
    exact ih _

-- ## Sorting lemmas

theorem mem_keysOf_insertSortedByKey {α : Type} (p : String × α) (m : List (String × α))
    (a : String) :
    a ∈ keysOf (insertSortedByKey p m) ↔ a = p.1 ∨ a ∈ keysOf m := by
  induction m with
  | nil => simp [insertSortedByKey, keysOf]
  | cons q l ih =>
    by_cases h : p.1 ≤ q.1 <;>
      simp [insertSortedByKey, h, keysOf, List.map_cons] at ih ⊢ <;>
      rw [ih] <;> tauto

theorem sorted_keysOf_insertSortedByKey {α : Type} (p : String × α) (m : List (String × α))
    (h : List.Sorted (· ≤ ·) (keysOf m)) :
    List.Sorted (· ≤ ·) (keysOf (insertSortedByKey p m)) := by
  induction m with
  | nil => simp [insertSortedByKey, keysOf]
  | cons q l ih =>
    simp only [keysOf, List.map_cons, List.sorted_cons] at h
    by_cases hle : p.1 ≤ q.1
    · rw [insertSortedByKey, if_pos hle]
      simp only [keysOf, List.map_cons, List.sorted_cons]
      refine ⟨?_, h.1, h.2⟩
      intro b hb
      rcases List.mem_cons.mp hb with rfl | hb
      · exact hle
      · exact le_trans hle (h.1 b hb)
    · rw [insertSortedByKey, if_neg hle]
      simp only [keysOf, List.map_cons, List.sorted_cons]
      refine ⟨?_, ih h.2⟩
      intro b hb
      rcases (mem_keysOf_insertSortedByKey p l b).mp hb with rfl | hb
      · exact le_of_not_le hle
      · exact h.1 b hb

theorem sorted_keysOf_sortByKey {α : Type} (m : List (String × α)) :
    List.Sorted (· ≤ ·) (keysOf (sortByKey m)) := by
  induction m with
  | nil => simp [sortByKey, keysOf]
  | cons p l ih =>
    rw [sortByKey]
    exact sorted_keysOf_insertSortedByKey p _ ih

theorem mem_keysOf_sortByKey {α : Type} (m : List (String × α)) (a : String) :
    a ∈ keysOf (sortByKey m) ↔ a ∈ keysOf m := by
  induction m with
  | nil => simp [sortByKey]
  | cons p l ih =>
    rw [sortByKey, mem_keysOf_insertSortedByKey]
    simp [keysOf, List.map_cons] at ih ⊢
    rw [ih]

theorem dictGet?_insertSortedByKey {α : Type} (p : String × α) (m : List (String × α))
    (k : String) (hp : p.1 ∉ keysOf m) :
    dictGet? k (insertSortedByKey p m) = dictGet? k (p :: m) := by
  induction m with
  | nil => simp [insertSortedByKey]
  | cons q l ih =>
    obtain ⟨kq, vq⟩ := q
    obtain ⟨kp, vp⟩ := p
    simp only [keysOf, List.map_cons, List.mem_cons] at hp
    push_neg at hp
    by_cases hle : kp ≤ kq
    · rw [insertSortedByKey, if_pos hle]
    · rw [insertSortedByKey, if_neg hle]
      by_cases hk : k = kq
      · rw [dictGet?, if_pos hk]
        show some vq = dictGet? k ((kp, vp) :: (kq, vq) :: l)
        rw [dictGet?, if_neg (by rw [hk]; exact fun hc => hp.1 hc.symm),
          dictGet?, if_pos hk]
      · rw [dictGet?, if_neg hk]
        rw [ih (by simpa [keysOf] using hp.2)]
        show dictGet? k ((kp, vp) :: l) = dictGet? k ((kp, vp) :: (kq, vq) :: l)
        by_cases hkp : k = kp
        · rw [dictGet?, if_pos hkp, dictGet?, if_pos hkp]
        · rw [dictGet?, if_neg hkp, dictGet?, if_neg hkp, dictGet?, if_neg hk]

theorem dictGet?_sortByKey {α : Type} (m : List (String × α)) (h : (keysOf m).Nodup)
    (k : String) :
    dictGet? k (sortByKey m) = dictGet? k m := by
  induction m with
  | nil => rfl
  | cons p l ih =>
    obtain ⟨kp, vp⟩ := p
    simp only [keysOf, List.map_cons, List.nodup_cons] at h
    rw [sortByKey]
    have hp : kp ∉ keysOf (sortByKey l) := by
      rw [mem_keysOf_sortByKey]
      exact h.1
    rw [dictGet?_insertSortedByKey _ _ _ hp]
    by_cases hk : k = kp
    · rw [dictGet?, if_pos hk, dictGet?, if_pos hk]
    · rw [dictGet?, if_neg hk, dictGet?, if_neg hk]
      exact ih h.2

-- ## Counting lemmas

theorem sum_upsert {κ α : Type} [DecidableEq κ] (g : α → Nat) (k : κ) (d : α) (f : α → α)
    (hf : ∀ v, g (f v) = g v + 1) (hd : g d = 0) (m : List (κ × α)) :
    ((upsert k d f m).map (fun p => g p.2)).sum = (m.map (fun p => g p.2)).sum + 1 := by
  induction m with
  | nil => simp [upsert, hf, hd]
  | cons q l ih =>
    obtain ⟨kq, vq⟩ := q
    by_cases h : k = kq
    · subst h; simp [upsert, hf]; omega
    · simp [upsert, h, ih]; omega

theorem countF_insF (c : Option String × EnergyBlock) (fm : FieldMap) :
    countF (insF c fm) = countF fm + 1 := by
  show ((upsert c.1 [] (insB c.2) fm).map (fun p => p.2.length)).sum = _
  rw [sum_upsert (fun bl => bl.length) c.1 [] (insB c.2)
    (fun v => by simp [insB]) (by simp) fm]
  rfl

theorem countM_insM (b : String × Option String × EnergyBlock) (mm : MachineMap) :
    countM (insM b mm) = countM mm + 1 := by
  show ((upsert b.1 [] (insF b.2) mm).map (fun p => countF p.2)).sum = _
  rw [sum_upsert countF b.1 [] (insF b.2) (fun v => countF_insF b.2 v) (by simp [countF]) mm]
  rfl

theorem countBlocks_insD (it : Item) (r : Agg) :
    countBlocks (insD it r) = countBlocks r + 1 := by
  show ((upsert it.1 [] (insM it.2) r).map (fun p => countM p.2)).sum = _
  rw [sum_upsert countM it.1 [] (insM it.2) (fun v => countM_insM it.2 v) (by simp [countM]) r]
  rfl

theorem countBlocks_insertSortedByKey (p : String × MachineMap) (m : Agg) :
    countBlocks (insertSortedByKey p m) = countM p.2 + countBlocks m := by
  induction m with
  | nil => simp [insertSortedByKey, countBlocks]
  | cons q l ih =>
    by_cases h : p.1 ≤ q.1
    · simp [insertSortedByKey, h, countBlocks]
    · simp [insertSortedByKey, h, countBlocks] at ih ⊢
      omega

theorem countBlocks_sortByKey (m : Agg) : countBlocks (sortByKey m) = countBlocks m := by
  induction m with
  | nil => rfl
  | cons p l ih =>
    rw [sortByKey, countBlocks_insertSortedByKey]
    simp [countBlocks] at ih ⊢
    omega

-- ## Characterizing one record-loop iteration

theorem processTrend_char (mapping : Mapping) (t : TrendData) (o : Option Item)
    (h : processTrend mapping t = Except.ok o) :
    (o = none ∧ eligibleTrend t = false) ∨
    (∃ it, o = some it ∧ eligibleTrend t = true ∧
      ∀ w, t.worklist = some w → it.2.1 = machineLabel mapping w.id) := by
  obtain ⟨dt, wl, md⟩ := t
  cases dt with
  | none => simp [processTrend] at h
  | some dateAttr =>
  cases wl with
  | none =>
    simp [processTrend] at h
    left
    exact ⟨h.symm, by simp [eligibleTrend]⟩
  | some w =>
  obtain ⟨wid, wname, wen, wmod, wfs, wfff, wpar⟩ := w
  cases wen with
  | none => simp [processTrend] at h
  | some energyTxt =>
  cases wmod with
  | none => simp [processTrend] at h
  | some modalityTxt =>
  cases wfs with
  | none => simp [processTrend] at h
  | some rawFieldTxt =>
  cases modalityTxt with
  | none => simp [processTrend] at h
  | some modalityStr =>
  cases hn : extractNorms wpar with
  | error e => simp [processTrend, hn] at h
  | ok nv =>
  cases md with
  | none =>
    simp [processTrend, hn] at h
    left
    exact ⟨h.symm, by simp [eligibleTrend]⟩
  | some mdd =>
  obtain ⟨av⟩ := mdd
  cases av with
  | none =>
    simp [processTrend, hn] at h
    left
    exact ⟨h.symm, by simp [eligibleTrend]⟩
  | some vs =>
  simp only [processTrend, hn] at h
  revert h
  split
  · intro h
    simp at h
  · intro h
    simp only [Except.ok.injEq] at h
    right
    refine ⟨_, h.symm, by simp [eligibleTrend], ?_⟩
    intro w' hw'
    injection hw' with hww
    subst hww
    rfl

theorem processTrend_ok_isSome (mapping : Mapping) (t : TrendData) (o : Option Item)
    (h : processTrend mapping t = Except.ok o) : o.isSome = eligibleTrend t := by
  rcases processTrend_char mapping t o h with ⟨rfl, he⟩ | ⟨it, rfl, he, _⟩ <;> simp [he]

-- ## parseLoop lemmas

theorem parseLoop_ok_count (mapping : Mapping) (ts : List TrendData) (acc r : Agg)
    (h : parseLoop mapping acc ts = Except.ok r) :
    countBlocks r = countBlocks acc + (ts.filter (fun t => eligibleTrend t)).length := by
  induction ts generalizing acc with
  | nil =>
    simp [parseLoop] at h
    simp [h.symm]
  | cons t ts ih =>
    rw [parseLoop] at h
    cases hp : processTrend mapping t with
    | error e => rw [hp] at h; exact absurd h (by simp)
    | ok o =>
      rw [hp] at h
      cases o with
      | none =>
        have he : eligibleTrend t = false := by
          simpa using (processTrend_ok_isSome mapping t none hp).symm
        simp only [List.filter_cons, he]
        exact ih acc h
      | some it =>
        have he : eligibleTrend t = true := by
          simpa using (processTrend_ok_isSome mapping t (some it) hp).symm
        have hr := ih (insD it acc) h
        rw [countBlocks_insD] at hr
        simp [List.filter_cons, he]
        omega

theorem parseLoop_ok_eq_buildUp (mapping : Mapping) (ts : List TrendData) (acc r : Agg)
    (h : parseLoop mapping acc ts = Except.ok r) :
    r = buildUp [] insM (eligibleItems mapping ts) acc := by
  induction ts generalizing acc with
  | nil =>
    simp [parseLoop] at h
    simp [eligibleItems, buildUp, h.symm]
  | cons t ts ih =>
    rw [parseLoop] at h
    cases hp : processTrend mapping t with
    | error e => rw [hp] at h; exact absurd h (by simp)
    | ok o =>
      rw [hp] at h
      cases o with
      | none =>
        rw [eligibleItems, List.filterMap_cons]
        simp only [hp]
        exact ih acc h
      | some it =>
        rw [eligibleItems, List.filterMap_cons]
        simp only [hp]
        obtain ⟨itd, itr⟩ := it
        rw [buildUp]
        exact ih (insD (itd, itr) acc) h

theorem parseLoop_ok_all_ok (mapping : Mapping) (ts : List TrendData) (acc r : Agg)
    (h : parseLoop mapping acc ts = Except.ok r) :
    ∀ t ∈ ts, ∃ o, processTrend mapping t = Except.ok o := by
  induction ts generalizing acc with
  | nil => simp
  | cons t ts ih =>
    rw [parseLoop] at h
    cases hp : processTrend mapping t with
    | error e => rw [hp] at h; exact absurd h (by simp)
    | ok o =>
      rw [hp] at h
      intro t' ht'
      rcases List.mem_cons.mp ht' with rfl | ht'
      · exact ⟨o, hp⟩
      · cases o with
        | none => exact ih acc h t' ht'
        | some it => exact ih (insD it acc) h t' ht'

-- ## Characterizing the measurement loop

theorem processValuesAux_ok (nv : List (String × ℚ)) (e : String) (vs : List ValueNode)
    (m0 : List (String × MeasEntry)) (f0 : List FailedTest)
    (m : List (String × MeasEntry)) (f : List FailedTest)
    (h : processValuesAux nv e m0 f0 vs = Except.ok (m, f)) :
    m = (vs.filterMap (validEntry nv e)).foldl (fun a p => dictInsert p.1 p.2 a) m0 ∧
    f = f0 ++ vs.filterMap (failOf nv e) := by
  induction vs generalizing m0 f0 with
  | nil =>
    simp [processValuesAux] at h
    simp [h.1.symm, h.2.symm]
  | cons v vs ih =>
    obtain ⟨vtag, vval⟩ := v
    by_cases hw : vtag = "Wedge"
    · simp only [processValuesAux, hw, if_true, eq_self_iff_true, ite_true] at h
      have hr := ih m0 f0 h
      simpa only [List.filterMap_cons, validEntry, failOf, hw, eq_self_iff_true,
        if_true, ite_true] using hr
    · cases vval with
      | none =>
        simp [processValuesAux, hw] at h
        have hr := ih m0 f0 h
        simpa [List.filterMap_cons, validEntry, failOf, hw] using hr
      | some tx =>
        cases tx with
        | none =>
          simp [processValuesAux, hw] at h
        | some s =>
          cases hq : parseFloat s with
          | none =>
            simp [processValuesAux, hw, hq] at h
          | some q =>
            simp [processValuesAux, hw, hq] at h
            have hr := ih _ _ h
            refine ⟨?_, ?_⟩
            · simpa [List.filterMap_cons, validEntry, failOf, hw, hq,
                List.foldl_cons] using hr.1
            · rw [hr.2]
              simp only [List.filterMap_cons, validEntry, failOf, hw, ite_false,
                if_false, hq]
              cases hdev : (devInfo nv e vtag q).2 with
              | none => simp [hdev]
              | some fl => simp [hdev]

theorem find?_append_eq {α : Type} (l₁ l₂ : List α) (p : α → Bool) :
    (l₁ ++ l₂).find? p =
      match l₁.find? p with
      | some a => some a
      | none => l₂.find? p := by
  induction l₁ with
  | nil => simp
  | cons a l ih =>
    by_cases h : p a
    · simp [List.find?_cons, h]
    · simp only [List.cons_append, List.find?_cons] at ih ⊢
      simp only [h]
      exact ih

theorem dictGet?_foldl_dictInsert {κ α : Type} [DecidableEq κ] (l : List (κ × α))
    (m0 : List (κ × α)) (k : κ) :
    dictGet? k (l.foldl (fun a p => dictInsert p.1 p.2 a) m0) =
      match l.reverse.find? (fun p => decide (p.1 = k)) with
      | some p => some p.2
      | none => dictGet? k m0 := by
  induction l generalizing m0 with
  | nil => simp
  | cons p l ih =>
    obtain ⟨kp, vp⟩ := p
    rw [List.foldl_cons, ih]
    rw [List.reverse_cons, find?_append_eq]
    cases hf : (l.reverse.find? (fun p => decide (p.1 = k))) with
    | some q => rfl
    | none =>
      by_cases hk : kp = k
      · subst hk
        simp [List.find?_cons, dictGet?_dictInsert_self]
      · simp [List.find?_cons, hk, dictGet?_dictInsert_ne (fun hc => hk hc.symm)]

theorem foldIns_insB (a : List EnergyBlock) (bs : List EnergyBlock) :
    foldIns insB a bs = a ++ bs := by
  induction bs generalizing a with
  | nil => simp [foldIns]
  | cons b bs ih =>
    rw [foldIns, ih]
    simp [insB]

-- ## The claims
/-- C5: the field-size conversion is total: a millimeter pair `"WxH"` is
converted to centimeters (`"100x100"` becomes `"10 cm X 10 cm"`), and any
input on which the conversion body fails is returned unchanged. -/
theorem c5_fieldsize_conversion :
    format_fieldsize_mm_to_cm "100x100" = "10 cm X 10 cm" ∧
    format_fieldsize_mm_to_cm "random" = "random" ∧
    ∀ s : String, fieldConvert s = none → format_fieldsize_mm_to_cm s = s := by
  refine ⟨by with_unfolding_all decide, by with_unfolding_all decide, ?_⟩
  intro s h
  simp [format_fieldsize_mm_to_cm, h]

/-- Witness for C5 at the concrete failing input `"random"`. -/
theorem c5_witness : format_fieldsize_mm_to_cm "random" = "random" :=
  c5_fieldsize_conversion.2.2 "random" (by with_unfolding_all decide)

/-- C8: the engine is deterministic — equal inputs give structurally equal
aggregated results; the embedding is a pure function of the record list and
the name mapping, with no hidden state. -/
theorem c8_deterministic :
    ∀ (t₁ t₂ : List TrendData) (m₁ m₂ : Mapping), t₁ = t₂ → m₁ = m₂ →
      parse_qcw_with_mapping t₁ m₁ = parse_qcw_with_mapping t₂ m₂ := by
  intro t₁ t₂ m₁ m₂ h₁ h₂
  rw [h₁, h₂]

/-- Witness for C8 at a concrete document. -/
theorem c8_witness :
    parse_qcw_with_mapping [tOk] [] = parse_qcw_with_mapping [tOk] [] :=
  c8_deterministic [tOk] [tOk] [] [] rfl rfl

/-- C2: in norm mode with a non-zero norm, the deviation is
`(measured - norm) / norm * 100` rendered to two decimals, and a failure
entry (parameter, rendered deviation, energy+unit label) is produced iff
the deviation strictly exceeds three percent in absolute value; measured
`103.0` against norm `100.0` renders `"3.00"` and is not flagged, measured
`103.1` renders `"3.10"` and is flagged. -/
theorem c2_norm_mode_deviation :
    (∀ (nv : List (String × ℚ)) (e tag : String) (q norm : ℚ),
        dictGet? tag nv = some norm → norm ≠ 0 →
        (devInfo nv e tag q).1 = fmtFixed 2 ((q - norm) / norm * 100) ∧
        (devInfo nv e tag q).2 =
          (if |(q - norm) / norm * 100| > 3 then
            some { parameter := tag, deviation := fmtFixed 2 ((q - norm) / norm * 100),
                   energy := e }
          else none)) ∧
    devInfo [("CAX", 100)] "6 MV" "CAX" 103 = ("3.00", none) ∧
    devInfo [("CAX", 100)] "6 MV" "CAX" (1031 / 10) =
      ("3.10", some { parameter := "CAX", deviation := "3.10", energy := "6 MV" }) ∧
    processValues [("CAX", 100)] "6 MV" [{ tag := "CAX", value := some (some "103.1") }] =
      Except.ok ([("CAX", { value := "103.10", deviation := "3.10" })],
        [{ parameter := "CAX", deviation := "3.10", energy := "6 MV" }]) := by
  refine ⟨?_, by with_unfolding_all decide, by with_unfolding_all decide,
    by with_unfolding_all decide⟩
  intro nv e tag q norm h hnz
  constructor
  · simp [devInfo, h, hnz]
  · simp [devInfo, h, hnz]

/-- Witness for C2 at measured `103`, norm `100`. -/
theorem c2_witness :
    (devInfo [("CAX", (100 : ℚ))] "6 MV" "CAX" 103).1 =
      fmtFixed 2 ((103 - 100) / 100 * 100) :=
  (c2_norm_mode_deviation.1 [("CAX", 100)] "6 MV" "CAX" 103 100
    (by with_unfolding_all decide) (by norm_num)).1

/-- C3: a norm of exactly zero renders the literal `"0.00"` and raises no
failure flag for the observation, for every measured value; no division is
performed. -/
theorem c3_zero_norm_sentinel :
    (∀ (nv : List (String × ℚ)) (e tag : String) (q : ℚ),
        dictGet? tag nv = some 0 → devInfo nv e tag q = ("0.00", none)) ∧
    processValues [("CAX", 0)] "6 MV" [{ tag := "CAX", value := some (some "123.45") }] =
      Except.ok ([("CAX", { value := "123.45", deviation := "0.00" })], []) := by
  constructor
  · intro nv e tag q h
    simp [devInfo, h]
  · with_unfolding_all decide

/-- Witness for C3 at measured `123.45`, norm `0`. -/
theorem c3_witness :
    devInfo [("CAX", (0 : ℚ))] "6 MV" "CAX" (12345 / 100) = ("0.00", none) :=
  c3_zero_norm_sentinel.1 [("CAX", 0)] "6 MV" "CAX" (12345 / 100)
    (by with_unfolding_all decide)

/-- C4 (modelled from the spec; no triple-mode code exists under src): a
parameter node carrying Min, Max and Target resolves to the triple policy;
triple-mode status is PASS iff min ≤ measured ≤ max with inclusive bounds,
FAIL otherwise, and NOT_APPLICABLE when the measured value or a bound does
not parse as a number; measured equal to min passes, one unit below fails. -/
theorem c4_triple_mode :
    (∀ (p : SpecParamNode) (lo hi tg : String), p.minTxt = some lo → p.maxTxt = some hi →
        p.targetTxt = some tg →
        resolveTolerance p = some (TolerancePolicy.triple lo hi tg)) ∧
    (∀ (mt lot hit : String) (m lo hi : ℚ), parseFloat mt = some m →
        parseFloat lot = some lo → parseFloat hit = some hi →
        (tripleStatus mt lot hit = QAStatus.PASS ↔ lo ≤ m ∧ m ≤ hi) ∧
        (tripleStatus mt lot hit = QAStatus.FAIL ↔ ¬ (lo ≤ m ∧ m ≤ hi))) ∧
    (∀ mt lot hit : String,
        parseFloat mt = none ∨ parseFloat lot = none ∨ parseFloat hit = none →
        tripleStatus mt lot hit = QAStatus.NOT_APPLICABLE) ∧
    tripleStatus "5.0" "5.0" "10.0" = QAStatus.PASS ∧
    tripleStatus "4.0" "5.0" "10.0" = QAStatus.FAIL ∧
    tripleStatus "oops" "5.0" "10.0" = QAStatus.NOT_APPLICABLE := by
  refine ⟨?_, ?_, ?_, by with_unfolding_all decide, by with_unfolding_all decide,
    by with_unfolding_all decide⟩
  · intro p lo hi tg hlo hhi htg
    simp [resolveTolerance, hlo, hhi, htg]
  · intro mt lot hit m lo hi hm hlo hhi
    unfold tripleStatus
    rw [hm, hlo, hhi]
    by_cases hc : lo ≤ m ∧ m ≤ hi
    · simp [hc]
    · simp [hc]
  · intro mt lot hit hnone
    unfold tripleStatus
    cases hm : parseFloat mt <;> cases hl : parseFloat lot <;> cases hh : parseFloat hit <;>
      simp_all

/-- Witness for C4 at the concrete boundary inputs. -/
theorem c4_witness :
    (tripleStatus "5.0" "5.0" "10.0" = QAStatus.PASS ↔ (5 : ℚ) ≤ 5 ∧ (5 : ℚ) ≤ 10) ∧
    tripleStatus "oops" "5.0" "10.0" = QAStatus.NOT_APPLICABLE :=
  ⟨(c4_triple_mode.2.1 "5.0" "5.0" "10.0" 5 5 10 (by with_unfolding_all decide)
      (by with_unfolding_all decide) (by with_unfolding_all decide)).1,
   c4_triple_mode.2.2.1 "oops" "5.0" "10.0" (Or.inl (by with_unfolding_all decide))⟩
/-- C9: under the mapping strategy the machine label is the caller-supplied
display name for the worklist id, with fallback `"Machine_<id>"` for ids
absent from the mapping; the worklist listing names a worklist with a
missing or empty `Name` element `"Worklist_<id>"`; and every parsed record's
machine label is exactly `machineLabel` of its worklist id. -/
theorem c9_machine_labels :
    (∀ (mapping : Mapping) (i nm : String), dictGet? i mapping = some nm →
        machineLabel mapping (some i) = nm) ∧
    (∀ (mapping : Mapping) (i : String), dictGet? i mapping = none →
        machineLabel mapping (some i) = "Machine_" ++ i) ∧
    (∀ w : WorklistNode, (w.name = none ∨ w.name = some none) →
        declaredName w = "Worklist_" ++ pyStr w.id) ∧
    (∀ (mapping : Mapping) (t : TrendData) (w : WorklistNode) (it : Item),
        t.worklist = some w → processTrend mapping t = Except.ok (some it) →
        it.2.1 = machineLabel mapping w.id) := by
  refine ⟨?_, ?_, ?_, ?_⟩
  · intro mapping i nm h
    simp [machineLabel, h]
  · intro mapping i h
    simp [machineLabel, h]
  · intro w h
    rcases h with h | h <;> simp [declaredName, h]
  · intro mapping t w it hw h
    rcases processTrend_char mapping t _ h with ⟨heq, _⟩ | ⟨it', heq, _, hm⟩
    · exact absurd heq (by simp)
    · injection heq with hii
      subst hii
      exact hm w hw

/-- Witness for C9 at the sample record `tOk` and the empty mapping. -/
theorem c9_witness :
    machineLabel [] (some "101") = "Machine_101" ∧
    ("2024-01-02", "Machine_101", some "10 cm X 10 cm", blkHalf).2.1 =
      machineLabel [] wlOk.id :=
  ⟨c9_machine_labels.2.1 [] "101" rfl,
   c9_machine_labels.2.2.2 [] tOk wlOk
     ("2024-01-02", "Machine_101", some "10 cm X 10 cm", blkHalf)
     rfl (by with_unfolding_all decide)⟩

/-- C1 counterexample: a well-formed document whose single trend record has
a non-numeric `Norm` text makes `parse_qcw_with_mapping` raise (modelled as
`Except.error`), so an exception escapes the engine although the top-level
document parsed; the claim that such a record degrades to a sentinel or is
skipped is false on the code. -/
theorem c1_counterexample :
    parse_qcw_with_mapping [tBadNorm] [] = Except.error "ValueError" := by
  with_unfolding_all decide

/-- C1 amended: records lacking a `Worklist`, `MeasData` or `AnalyzeValues`
element are skipped without raising, and unparseable `Fieldsize` text passes
through unchanged as the grouping key; but a non-numeric `Norm` or `Value`
text, a missing `date` attribute, and a missing `Energy`, `Modality` or
`Fieldsize` element each raise an exception that escapes the engine. -/
theorem c1_per_record_robustness :
    (∀ (mapping : Mapping) (t : TrendData) (d : String), t.date = some d →
        t.worklist = none → processTrend mapping t = Except.ok none) ∧
    parse_qcw_with_mapping [tNoWorklist] [] = Except.ok [] ∧
    parse_qcw_with_mapping [tNoMeas] [] = Except.ok [] ∧
    parse_qcw_with_mapping [tNoAnalyze] [] = Except.ok [] ∧
    parse_qcw_with_mapping [tWeirdField] [] =
      Except.ok [("2024-01-02", [("Machine_101", [(some "random", [blkHalf])])])] ∧
    parse_qcw_with_mapping [tBadNorm] [] = Except.error "ValueError" ∧
    parse_qcw_with_mapping [tBadValue] [] = Except.error "ValueError" ∧
    parse_qcw_with_mapping [tNoDate] [] = Except.error "AttributeError" ∧
    parse_qcw_with_mapping [tNoEnergy] [] = Except.error "AttributeError" ∧
    parse_qcw_with_mapping [tNoModality] [] = Except.error "AttributeError" ∧
    parse_qcw_with_mapping [tNoFieldsize] [] = Except.error "AttributeError" := by
  refine ⟨?_, by with_unfolding_all decide, by with_unfolding_all decide,
    by with_unfolding_all decide, by with_unfolding_all decide,
    by with_unfolding_all decide, by with_unfolding_all decide,
    by with_unfolding_all decide, by with_unfolding_all decide,
    by with_unfolding_all decide, by with_unfolding_all decide⟩
  intro mapping t d hd hw
  simp [processTrend, hd, hw]

/-- Witness for C1 at the record with no `Worklist` element. -/
theorem c1_witness :
    processTrend ([] : Mapping) tNoWorklist = Except.ok none :=
  c1_per_record_robustness.1 [] tNoWorklist "2024-01-02 08:00:00" rfl rfl

/-- C10: within one record, a duplicated parameter name keeps only the last
occurrence's entry in the measured map, while `failed_tests` receives one
entry per occurrence whose deviation exceeds three percent in absolute
value, so one name can appear twice among the failures but once among the
measurements. -/
theorem c10_duplicate_params :
    (∀ (nv : List (String × ℚ)) (e : String) (vs : List ValueNode)
        (m : List (String × MeasEntry)) (f : List FailedTest),
        processValues nv e vs = Except.ok (m, f) →
        f = vs.filterMap (failOf nv e) ∧
        ∀ k, dictGet? k m =
          ((vs.filterMap (validEntry nv e)).reverse.find?
            (fun p => decide (p.1 = k))).map Prod.snd) ∧
    processValues [("CAX", 100)] "6 MV" [vnDupA, vnDupB] =
      Except.ok ([("CAX", { value := "90.00", deviation := "-10.00" })],
        [{ parameter := "CAX", deviation := "10.00", energy := "6 MV" },
         { parameter := "CAX", deviation := "-10.00", energy := "6 MV" }]) := by
  refine ⟨?_, by with_unfolding_all decide⟩
  intro nv e vs m f h
  have hc := processValuesAux_ok nv e vs [] [] m f h
  refine ⟨by simpa using hc.2, ?_⟩
  intro k
  rw [hc.1, dictGet?_foldl_dictInsert]
  cases hf : ((vs.filterMap (validEntry nv e)).reverse.find? (fun p => decide (p.1 = k))) with
  | some p => simp
  | none => simp [dictGet?]

/-- Witness for C10 at the duplicated `CAX` record. -/
theorem c10_witness :
    processValues [("CAX", (100 : ℚ))] "6 MV" [vnDupA, vnDupB] =
      Except.ok ([("CAX", { value := "90.00", deviation := "-10.00" })],
        [{ parameter := "CAX", deviation := "10.00", energy := "6 MV" },
         { parameter := "CAX", deviation := "-10.00", energy := "6 MV" }]) ∧
    ([{ parameter := "CAX", deviation := "10.00", energy := "6 MV" },
      { parameter := "CAX", deviation := "-10.00", energy := "6 MV" }] : List FailedTest) =
      [vnDupA, vnDupB].filterMap (failOf [("CAX", (100 : ℚ))] "6 MV") := by
  have hpv : processValues [("CAX", (100 : ℚ))] "6 MV" [vnDupA, vnDupB] =
      Except.ok ([("CAX", { value := "90.00", deviation := "-10.00" })],
        [{ parameter := "CAX", deviation := "10.00", energy := "6 MV" },
         { parameter := "CAX", deviation := "-10.00", energy := "6 MV" }]) := by
    with_unfolding_all decide
  exact ⟨hpv, (c10_duplicate_params.1 [("CAX", 100)] "6 MV" [vnDupA, vnDupB] _ _ hpv).1⟩

theorem getDflt_nil {κ α : Type} [DecidableEq κ] (k : κ) (d : α) :
    getDflt k d [] = d := rfl

theorem foldIns_insM_eq (l : List (String × Option String × EnergyBlock)) (mm : MachineMap) :
    foldIns insM mm l = buildUp [] insF l mm :=
  foldIns_eq_buildUp [] insF l mm

theorem foldIns_insF_eq (l : List (Option String × EnergyBlock)) (fm : FieldMap) :
    foldIns insF fm l = buildUp [] insB l fm :=
  foldIns_eq_buildUp [] insB l fm

/-- C6: for every document the engine accepts, the number of energy blocks
across the aggregated report equals the number of trend records that carry
a `Worklist`, a `MeasData` and an `AnalyzeValues` element; the other
records are skipped and contribute no block. -/
theorem c6_block_count :
    ∀ (trends : List TrendData) (mapping : Mapping) (r : Agg),
      parse_qcw_with_mapping trends mapping = Except.ok r →
      countBlocks r = (trends.filter (fun t => eligibleTrend t)).length := by
  intro trends mapping r h
  unfold parse_qcw_with_mapping at h
  cases hl : parseLoop mapping [] trends with
  | error e => rw [hl] at h; exact absurd h (by simp)
  | ok acc =>
    rw [hl] at h
    simp only [Except.ok.injEq] at h
    subst h
    rw [countBlocks_sortByKey]
    have hc := parseLoop_ok_count mapping trends [] acc hl
    simpa [countBlocks] using hc

/-- Witness for C6 at a three-record document with one skipped record. -/
theorem c6_witness :
    parse_qcw_with_mapping [tOk, tNoWorklist, tOkEarlier] [("101", "TrueBeam")] =
      Except.ok aggTwoDays ∧
    countBlocks aggTwoDays =
      ([tOk, tNoWorklist, tOkEarlier].filter (fun t => eligibleTrend t)).length := by
  have hp : parse_qcw_with_mapping [tOk, tNoWorklist, tOkEarlier] [("101", "TrueBeam")] =
      Except.ok aggTwoDays := by with_unfolding_all decide
  exact ⟨hp, c6_block_count _ _ _ hp⟩

/-- C7: in every accepted report the top-level date keys are sorted
ascending, and the machine level under each date, the field level under
each machine, and the block list under each field retain the first-seen
order of the eligible records of the source document. -/
theorem c7_ordering :
    ∀ (trends : List TrendData) (mapping : Mapping) (r : Agg),
      parse_qcw_with_mapping trends mapping = Except.ok r →
      List.Sorted (· ≤ ·) (keysOf r) ∧
      (∀ d, keysOf (getDflt d [] r) =
        firstSeenFrom [] ((payloadsAt (eligibleItems mapping trends) d).map Prod.fst)) ∧
      (∀ d m, keysOf (getDflt m [] (getDflt d [] r)) =
        firstSeenFrom []
          ((payloadsAt (payloadsAt (eligibleItems mapping trends) d) m).map Prod.fst)) ∧
      (∀ d m f, getDflt f [] (getDflt m [] (getDflt d [] r)) =
        payloadsAt (payloadsAt (payloadsAt (eligibleItems mapping trends) d) m) f) := by
  intro trends mapping r h
  unfold parse_qcw_with_mapping at h
  cases hl : parseLoop mapping [] trends with
  | error e => rw [hl] at h; exact absurd h (by simp)
  | ok acc =>
    rw [hl] at h
    simp only [Except.ok.injEq] at h
    subst h
    have hacc := parseLoop_ok_eq_buildUp mapping trends [] acc hl
    have hnd : (keysOf acc).Nodup := by
      rw [hacc, keysOf_buildUp]
      have := nodup_append_firstSeenFrom ([] : List String)
        ((eligibleItems mapping trends).map Prod.fst) (by simp)
      simpa [keysOf] using this
    have hget : ∀ d : String,
        getDflt d ([] : MachineMap) (sortByKey acc) = getDflt d [] acc := by
      intro d
      unfold getDflt
      rw [dictGet?_sortByKey acc hnd]
    have hlvl1 : ∀ d : String, getDflt d ([] : MachineMap) acc =
        buildUp [] insF (payloadsAt (eligibleItems mapping trends) d) [] := by
      intro d
      rw [hacc, getDflt_buildUp, getDflt_nil, foldIns_insM_eq]
    refine ⟨sorted_keysOf_sortByKey acc, ?_, ?_, ?_⟩
    · intro d
      rw [hget d, hlvl1 d, keysOf_buildUp]
      simp [keysOf]
    · intro d m
      rw [hget d, hlvl1 d, getDflt_buildUp, getDflt_nil, foldIns_insF_eq, keysOf_buildUp]
      simp [keysOf]
    · intro d m f
      rw [hget d, hlvl1 d, getDflt_buildUp, getDflt_nil, foldIns_insF_eq,
        getDflt_buildUp, getDflt_nil, foldIns_insB]
      simp

/-- Witness for C7: the two-date sample document sorts its dates ascending. -/
theorem c7_witness :
    parse_qcw_with_mapping [tOk, tNoWorklist, tOkEarlier] [("101", "TrueBeam")] =
      Except.ok aggTwoDays ∧
    List.Sorted (· ≤ ·) (keysOf aggTwoDays) := by
  have hp : parse_qcw_with_mapping [tOk, tNoWorklist, tOkEarlier] [("101", "TrueBeam")] =
      Except.ok aggTwoDays := by with_unfolding_all decide
  exact ⟨hp, (c7_ordering _ _ _ hp).1⟩
